import Mathlib

/-!
Verification of the Luma sync / contact-deduplication engine of the zo-crm
repository.  The definitions below are shallow embeddings of the TypeScript
functions in `src/scripts/sync_luma_now.ts`, the sync API route, the full-sync
script (appended to `src/supabase/migrations/001_crm_schema.sql`), and
`deduplicateContacts` / `fetchAllEvents` / `fetchLumaData` in
`src/apps/web/src/components/auth-guard.tsx`.  JavaScript truthiness on
optional strings (where `undefined` and `""` are both falsy) is modelled
explicitly; ISO timestamp strings are modelled as naturals (the `Date`
comparison used by the code is order-isomorphic to the numeric order), and
JS `number` ticket amounts as integers.
-/

set_option autoImplicit false

namespace ZoCRM

/-- JS truthiness of an optional string: `undefined` and `""` are falsy. -/
def jsTruthy : Option String → Bool
  | none => false
  | some s => !(s == "")

/-- JS `a || b` on optional strings: `a` when truthy, otherwise `b` as-is. -/
def jsOr (a b : Option String) : Option String :=
  if jsTruthy a then a else b

/-- JS `a || b` where the fallback is a plain string. -/
def jsOrStr (a : Option String) (b : String) : String :=
  match a with
  | none => b
  | some s => if s = "" then b else s

/-- JS `a || undefined`: normalises a falsy value to `undefined`. -/
def jsUndef (a : Option String) : Option String :=
  if jsTruthy a then a else none

/-- One entry of `registration_answers` in a Luma guest payload. -/
structure RegistrationAnswer where
  label : String
  value : String
  deriving DecidableEq

/-- The `LumaGuest` record shape shared by all four copies of the sync code.
`created_at`/`registered_at` timestamps are modelled as naturals and
`event_ticket` as its `amount` field. -/
structure LumaGuest where
  api_id : Option String
  user_api_id : Option String
  name : Option String
  user_name : Option String
  email : Option String
  user_email : Option String
  phone_number : Option String
  eth_address : Option String
  solana_address : Option String
  created_at : Nat
  registered_at : Option Nat
  event_api_id : String
  registration_answers : Option (List RegistrationAnswer)
  event_ticket : Option Int
  deriving DecidableEq

/-- The `LumaEvent` record: `{ api_id, name }`. -/
structure LumaEvent where
  api_id : String
  name : String
  deriving DecidableEq

/-- JS `String.prototype.toLowerCase`, character-wise (the repository's data
is ASCII, where this agrees with Lean's `String.toLower`). -/
def lowerStr (s : String) : String :=
  String.mk (s.data.map Char.toLower)

/-- JS `String.prototype.split` with a one-character separator (the only form
the code uses: `'@'`, `'.'` and `' '`); `"".split(sep)` is `[""]`, and empty
segments are kept, exactly as in JS. -/
def splitChar (sep : Char) (s : String) : List String :=
  (s.data.foldr (fun c acc =>
    match acc with
    | [] => [[c]]
    | cur :: rest => if c = sep then [] :: (cur :: rest) else (c :: cur) :: rest) [[]]).map
    String.mk

/-- Substring test mirroring JS `String.prototype.includes`. -/
def strContains (s pat : String) : Bool :=
  (List.range (s.length + 1)).any (fun i => pat.toList.isPrefixOf (s.toList.drop i))

/-- `extractSocialHandle`: first registration answer whose lowercased label
contains one of the keywords.  The TS guard `typeof value === 'string'` is
always true in the model, where answer values are strings. -/
def extractSocialHandle (answers : Option (List RegistrationAnswer)) (keywords : List String) :
    Option String :=
  match answers with
  | none => none
  | some l =>
    (l.find? (fun a => keywords.any (fun k => strContains (lowerStr a.label) k))).map
      (fun a => a.value)

/-- `guest.event_ticket?.amount || 0`: a missing ticket contributes `0`.
For numbers, `a || 0` is the identity (it maps the falsy `0` to `0` itself),
so a present amount — including a negative one — passes through. -/
def ticketAmount (g : LumaGuest) : Int :=
  match g.event_ticket with
  | none => 0
  | some a => a

/-- `PERSONAL_EMAIL_DOMAINS` as in the three sync scripts. -/
def PERSONAL_EMAIL_DOMAINS : List String :=
  ["gmail.com", "googlemail.com", "yahoo.com", "yahoo.co.in", "yahoo.co.uk",
   "hotmail.com", "hotmail.co.uk", "outlook.com", "outlook.in",
   "live.com", "msn.com", "icloud.com", "me.com", "mac.com",
   "aol.com", "protonmail.com", "proton.me"]

/-- Capitalisation step of `getCompanyFromEmail`:
`name.charAt(0).toUpperCase() + name.slice(1)`. -/
def capitalizeFirst (s : String) : String :=
  match s.toList with
  | [] => ""
  | c :: rest => String.mk (c.toUpper :: rest)

/-- `getCompanyFromEmail` from the sync scripts: the part of the e-mail domain
before the first dot, capitalised; `null` for personal domains or a missing
domain part. -/
def getCompanyFromEmail (email : String) : Option String :=
  match (splitChar '@' email).get? 1 with
  | none => none
  | some d =>
    let domain := lowerStr d
    if domain = "" ∨ PERSONAL_EMAIL_DOMAINS.contains domain then none
    else
      match (splitChar '.' domain).head? with
      | none => none
      | some n => some (capitalizeFirst n)

/-- `(guest.user_email || guest.email)?.toLowerCase()` followed by the
`if (!email) continue;` guard of the sync-script merge loops: `none` exactly
when no truthy e-mail is available. -/
def normEmail (g : LumaGuest) : Option String :=
  match jsOr g.user_email g.email with
  | none => none
  | some s => if lowerStr s = "" then none else some (lowerStr s)

/-- The contact row built by the sync scripts (the value type of their
`contactMap`, which is also the upsert payload row). -/
structure SyncContact where
  email : String
  first_name : String
  last_name : String
  phone : Option String
  company : Option String
  telegram : Option String
  twitter : Option String
  linkedin : Option String
  eth_address : Option String
  solana_address : Option String
  luma_user_id : Option String
  events_attended : Nat
  total_spent : Int
  source : String
  source_detail : String
  relationship_stage : String
  deriving DecidableEq

/-- The `else` (first-sighting) branch of the sync-script merge loop:
`contactMap.set(email, { ... })`. -/
def createContact (calendarName email : String) (g : LumaGuest) : SyncContact :=
  let nm := (jsOr g.user_name g.name).getD ""
  let nameParts := splitChar ' ' nm
  { email := email
    first_name := nameParts.headD ""
    last_name := String.intercalate " " (nameParts.drop 1)
    phone := g.phone_number
    company := getCompanyFromEmail email
    telegram := extractSocialHandle g.registration_answers ["telegram"]
    twitter := extractSocialHandle g.registration_answers ["twitter", "x handle"]
    linkedin := extractSocialHandle g.registration_answers ["linkedin"]
    eth_address := g.eth_address
    solana_address := g.solana_address
    luma_user_id := g.user_api_id
    events_attended := 1
    total_spent := ticketAmount g
    source := "luma"
    source_detail := calendarName
    relationship_stage := "lead" }

/-- The `if (existing)` branch of the sync-script merge loop: unconditional
`events_attended++` and `total_spent += ticketAmount`, plus first-truthy-wins
backfill of phone, wallet addresses, telegram and twitter (`linkedin` is only
set at creation in the sync scripts). -/
def mergeExisting (c : SyncContact) (g : LumaGuest) : SyncContact :=
  let tg := extractSocialHandle g.registration_answers ["telegram"]
  let tw := extractSocialHandle g.registration_answers ["twitter", "x handle"]
  { c with
    events_attended := c.events_attended + 1
    total_spent := c.total_spent + ticketAmount g
    phone := if !jsTruthy c.phone && jsTruthy g.phone_number then g.phone_number else c.phone
    eth_address :=
      if !jsTruthy c.eth_address && jsTruthy g.eth_address then g.eth_address else c.eth_address
    solana_address :=
      if !jsTruthy c.solana_address && jsTruthy g.solana_address then g.solana_address
      else c.solana_address
    telegram := if !jsTruthy c.telegram && jsTruthy tg then tg else c.telegram
    twitter := if !jsTruthy c.twitter && jsTruthy tw then tw else c.twitter }

/-- Lookup in a JS `Map` modelled as an association list (keys are unique by
construction, as in the builtin). -/
def mapGet {β : Type} : List (String × β) → String → Option β
  | [], _ => none
  | p :: m, k => if p.1 = k then some p.2 else mapGet m k

/-- `Map.set`: update in place when the key exists, else append at the end
(JS `Map` preserves insertion order). -/
def mapSet {β : Type} : List (String × β) → String → β → List (String × β)
  | [], k, v => [(k, v)]
  | p :: m, k, v => if p.1 = k then (k, v) :: m else p :: mapSet m k v

/-- The common per-guest step shared by all four copies of the merge loop:
skip the record when it has no usable key, otherwise create or merge. -/
def dstep {C : Type} (keyOf : LumaGuest → Option String) (create : String → LumaGuest → C)
    (merge : C → LumaGuest → C) (m : List (String × C)) (g : LumaGuest) : List (String × C) :=
  match keyOf g with
  | none => m
  | some k =>
    match mapGet m k with
    | some c => mapSet m k (merge c g)
    | none => mapSet m k (create k g)

/-- One iteration of `for (const guest of allGuests)` in the sync scripts. -/
def syncStep (calendarName : String) : List (String × SyncContact) → LumaGuest →
    List (String × SyncContact) :=
  dstep normEmail (createContact calendarName) mergeExisting

/-- The whole per-calendar dedup loop of the sync scripts, from an empty
`contactMap` (one fresh map per calendar). -/
def syncDedupe (calendarName : String) (guests : List LumaGuest) :
    List (String × SyncContact) :=
  guests.foldl (syncStep calendarName) []

/-- `PERSONAL_EMAIL_DOMAINS` of `auth-guard.tsx` (a longer list than the sync
scripts use). -/
def AG_PERSONAL_EMAIL_DOMAINS : List String :=
  ["gmail.com", "googlemail.com", "yahoo.com", "yahoo.co.in", "yahoo.co.uk",
   "yahoo.fr", "yahoo.de", "hotmail.com", "hotmail.co.uk", "hotmail.fr",
   "outlook.com", "outlook.in", "live.com", "live.in", "msn.com",
   "icloud.com", "me.com", "mac.com", "aol.com", "protonmail.com", "proton.me",
   "zoho.com", "yandex.com", "yandex.ru", "mail.com", "email.com",
   "gmx.com", "gmx.de", "rediffmail.com", "fastmail.com", "tutanota.com",
   "hey.com", "pm.me"]

/-- `getEmailType` of `auth-guard.tsx`: `(type, domain)` with the domain part
lowercased and defaulted to `""`. -/
def getEmailType (email : String) : String × String :=
  let domain := jsOrStr (((splitChar '@' email).get? 1).map lowerStr) ""
  (if AG_PERSONAL_EMAIL_DOMAINS.contains domain then "personal" else "business", domain)

/-- The `UniqueContact` shape built by `deduplicateContacts` in
`auth-guard.tsx`.  `email` keeps the raw `guest.user_email || guest.email`
value (which the source passes to `getEmailType` unchecked). -/
structure AGContact where
  user_api_id : String
  name : String
  email : Option String
  email_type : String
  email_domain : String
  phone : Option String
  eth_address : Option String
  solana_address : Option String
  telegram : Option String
  twitter : Option String
  linkedin : Option String
  first_seen : Nat
  events_count : Nat
  total_spent : Int
  events : List String
  deriving DecidableEq

/-- `guest.user_api_id || guest.email || guest.user_email` followed by the
`if (!key) return;` guard of `deduplicateContacts`. -/
def agKey (g : LumaGuest) : Option String :=
  match jsOr (jsOr g.user_api_id g.email) g.user_email with
  | none => none
  | some s => if s = "" then none else some s

/-- `guest.registered_at || guest.created_at` with timestamps as naturals. -/
def effTime (g : LumaGuest) : Nat :=
  match g.registered_at with
  | none => g.created_at
  | some t => t

/-- `eventMap.get(guest.event_api_id) || guest.event_api_id`. -/
def eventNameOf (eventMap : List (String × String)) (g : LumaGuest) : String :=
  jsOrStr (mapGet eventMap g.event_api_id) g.event_api_id

/-- The creation branch of `deduplicateContacts`.  In the source,
`getEmailType(email)` is called on the raw `guest.user_email || guest.email`;
when that value is `undefined` (a guest keyed purely by `user_api_id`) the JS
call throws, so the model (which feeds `""` instead) agrees with the source
exactly on guests whose e-mail value is truthy — the hypothesis under which
the theorems below about this function are stated. -/
def agCreate (eventName key : String) (g : LumaGuest) : AGContact :=
  let email := jsOr g.user_email g.email
  let et := getEmailType (email.getD "")
  { user_api_id := jsOrStr g.user_api_id key
    name := jsOrStr (jsOr g.user_name g.name) "Unknown"
    email := email
    email_type := et.1
    email_domain := et.2
    phone := jsUndef g.phone_number
    eth_address := jsUndef g.eth_address
    solana_address := jsUndef g.solana_address
    telegram := extractSocialHandle g.registration_answers ["telegram"]
    twitter := extractSocialHandle g.registration_answers ["twitter", "x handle", "x (twitter)"]
    linkedin := extractSocialHandle g.registration_answers ["linkedin"]
    first_seen := effTime g
    events_count := 1
    total_spent := ticketAmount g
    events := [eventName] }

/-- The `if (existing)` branch of `deduplicateContacts`: unconditional
`events_count++` and `total_spent +=`, the `events` list deduplicated by
name, first-truthy-wins backfill (here the social handles are re-extracted
and assigned without a truthiness check on the new value), and the
earliest-registration update of `first_seen`. -/
def agMerge (eventName : String) (c : AGContact) (g : LumaGuest) : AGContact :=
  { c with
    events_count := c.events_count + 1
    total_spent := c.total_spent + ticketAmount g
    events := if c.events.contains eventName then c.events else c.events ++ [eventName]
    phone := if !jsTruthy c.phone && jsTruthy g.phone_number then g.phone_number else c.phone
    eth_address :=
      if !jsTruthy c.eth_address && jsTruthy g.eth_address then g.eth_address else c.eth_address
    solana_address :=
      if !jsTruthy c.solana_address && jsTruthy g.solana_address then g.solana_address
      else c.solana_address
    telegram :=
      if jsTruthy c.telegram then c.telegram
      else extractSocialHandle g.registration_answers ["telegram"]
    twitter :=
      if jsTruthy c.twitter then c.twitter
      else extractSocialHandle g.registration_answers ["twitter", "x handle", "x (twitter)"]
    linkedin :=
      if jsTruthy c.linkedin then c.linkedin
      else extractSocialHandle g.registration_answers ["linkedin"]
    first_seen := if effTime g < c.first_seen then effTime g else c.first_seen }

/-- One iteration of `guests.forEach` in `deduplicateContacts`. -/
def agStep (eventMap : List (String × String)) :
    List (String × AGContact) → LumaGuest → List (String × AGContact) :=
  dstep agKey (fun key g => agCreate (eventNameOf eventMap g) key g)
    (fun c g => agMerge (eventNameOf eventMap g) c g)

/-- The `eventMap` built at the top of `deduplicateContacts`:
`events.forEach(e => eventMap.set(e.api_id, e.name))`. -/
def agEventMap (events : List LumaEvent) : List (String × String) :=
  events.foldl (fun em e => mapSet em e.api_id e.name) []

/-- The contact map accumulated by `deduplicateContacts` (the source finally
returns its values sorted by descending `events_count`, which no claim
inspects). -/
def agDedupeMap (events : List LumaEvent) (guests : List LumaGuest) :
    List (String × AGContact) :=
  guests.foldl (agStep (agEventMap events)) []

/-! ### Paginated fetching with retry -/

/-- One page payload of the Luma API. -/
structure PageData where
  entries : List LumaEvent
  has_more : Bool
  deriving DecidableEq

/-- Outcome of one `fetch` call: a 2xx response with a parsed page, a non-2xx
status code, or a thrown network error. -/
inductive Resp where
  | ok (page : PageData)
  | status (code : Nat)
  | netErr
  deriving DecidableEq

/-- Result of `fetchWithRetry`: the returned response (or `null`), together
with the number of `fetch` calls performed and the total milliseconds spent
in `delay` waits. -/
structure FwrOut where
  result : Option PageData
  fetches : Nat
  waitMs : Nat
  deriving DecidableEq

/-- The attempt loop of `fetchWithRetry` (full-sync script): on 429 wait
`min(1000·2^attempt, 30000)` ms and retry; on any other non-2xx status return
`null` immediately; on a thrown network error wait `1000·2^attempt` ms
(uncapped in the source) and retry.  `responses n` is what the `n`-th fetch
of this request returns. -/
def fwrGo (responses : Nat → Resp) (attempt : Nat) : Nat → FwrOut
  | 0 => ⟨none, 0, 0⟩
  | fuel + 1 =>
    match responses attempt with
    | .ok p => ⟨some p, 1, 0⟩
    | .status s =>
      if s = 429 then
        let rest := fwrGo responses (attempt + 1) fuel
        ⟨rest.result, rest.fetches + 1, rest.waitMs + min (1000 * 2 ^ attempt) 30000⟩
      else ⟨none, 1, 0⟩
    | .netErr =>
      let rest := fwrGo responses (attempt + 1) fuel
      ⟨rest.result, rest.fetches + 1, rest.waitMs + 1000 * 2 ^ attempt⟩

/-- `fetchWithRetry(url, headers, maxRetries)`; the source's default
`maxRetries` is `5`. -/
def fetchWithRetry (responses : Nat → Resp) (maxRetries : Nat) : FwrOut :=
  fwrGo responses 0 maxRetries

/-- Total backoff wait of `fuel` consecutive 429 responses starting at a given
attempt index. -/
def backoffSum (attempt : Nat) : Nat → Nat
  | 0 => 0
  | fuel + 1 => backoffSum (attempt + 1) fuel + min (1000 * 2 ^ attempt) 30000

/-- The page loop of `fetchAllEvents` in `auth-guard.tsx` (`maxRetries = 3`):
`while (hasMore && retries < maxRetries)`; a non-ok response or a thrown
error increments `retries` and retries the same request; a successful page
resets `retries`, appends its entries and follows the cursor.  The input list
is the stream of fetch outcomes; the result is the accumulated events and the
number of `fetch` calls performed.  (An exhausted outcome list stands for a
source that would keep the loop waiting; theorems only use inputs on which
the loop exits first.) -/
def agFEGo : List Resp → Nat → List LumaEvent × Nat
  | [], _ => ([], 0)
  | r :: rest, retries =>
    if 3 ≤ retries then ([], 0)
    else
      match r with
      | .ok page =>
        if page.has_more then
          let res := agFEGo rest 0
          (page.entries ++ res.1, res.2 + 1)
        else (page.entries, 1)
      | .status _ =>
        let res := agFEGo rest (retries + 1)
        (res.1, res.2 + 1)
      | .netErr =>
        let res := agFEGo rest (retries + 1)
        (res.1, res.2 + 1)

/-- `fetchAllEvents` of `auth-guard.tsx`, starting with `retries = 0`. -/
def agFetchAllEvents (rs : List Resp) : List LumaEvent × Nat :=
  agFEGo rs 0

/-! ### Batch coordination -/

/-- Fuel-driven worker for `chunksOf`; with `fuel ≥ l.length` and `n ≥ 1` it
peels `l.take n` chunks until the list is exhausted. -/
def chunksOfGo {α : Type} (n : Nat) : Nat → List α → List (List α)
  | 0, _ => []
  | _, [] => []
  | fuel + 1, a :: l => (a :: l).take n :: chunksOfGo n fuel ((a :: l).drop n)

/-- `list.slice(i, i + n)` batching of the sync loops (the loop bound `n` is
always a positive literal in the source: 100, 10 or 5). -/
def chunksOf {α : Type} (n : Nat) (l : List α) : List (List α) :=
  if n = 0 then [l] else chunksOfGo n l.length l

/-- `Promise.all` over settled outcomes: the first rejection rejects the whole
batch, otherwise all values are collected. -/
def promiseAll {α : Type} : List (Except Unit α) → Except Unit (List α)
  | [] => .ok []
  | .error e :: _ => .error e
  | .ok a :: rest => (promiseAll rest).map (fun l => a :: l)

/-- `Promise.allSettled` followed by keeping the fulfilled values, as in
`fetchLumaData` of `auth-guard.tsx`. -/
def settledValues {α : Type} (l : List (Except Unit α)) : List α :=
  l.filterMap (fun r => match r with | .ok a => some a | .error _ => none)

/-- The guest-fetch phase of `sync_luma_now.ts` / the API route: batches of 10
events awaited with `Promise.all`; a rejection in any batch propagates out of
`main` (whose only handler is `main().catch(console.error)`), so the whole
phase — and the run — yields an error.  `outcomes` holds, per event, either
that event's fetched guest list or a thrown failure. -/
def syncGuestPhaseGo : List (List (Except Unit (List LumaGuest))) → Except Unit (List LumaGuest)
  | [] => .ok []
  | b :: rest =>
    match promiseAll b with
    | .error e => .error e
    | .ok gss => (syncGuestPhaseGo rest).map (fun tail => gss.flatten ++ tail)

/-- Guest-fetch phase of the sync script over all its batches. -/
def syncGuestPhase (outcomes : List (Except Unit (List LumaGuest))) :
    Except Unit (List LumaGuest) :=
  syncGuestPhaseGo (chunksOf 10 outcomes)

/-- The guest-fetch phase of `fetchLumaData` in `auth-guard.tsx`: batches of 5
events awaited with `Promise.allSettled`; only fulfilled guest lists are
appended, rejected events are skipped. -/
def agGuestPhase (outcomes : List (Except Unit (List LumaGuest))) : List LumaGuest :=
  (chunksOf 5 outcomes).foldl (fun acc b => acc ++ (settledValues b).flatten) []

/-! ### The orchestrating run -/

/-- The `results` accumulator of `main` in the sync scripts (the per-calendar
entries are dropped; no claim inspects them). -/
structure RunResults where
  totalContacts : Nat
  imported : Nat
  errors : Nat
  deriving DecidableEq

/-- The upsert loop of the sync scripts: batches of 100; a failed batch adds
the whole batch length to `errors`, a successful one adds the returned row
count (one row per upserted contact) to `imported`.  `failBatch i` tells
whether the `i`-th batch's upsert fails.  Returns `(imported, errors)`. -/
def upsertPhase (failBatch : Nat → Bool) (contacts : List SyncContact) : Nat × Nat :=
  ((chunksOf 100 contacts).zip (List.range (chunksOf 100 contacts).length)).foldl
    (fun acc bi =>
      if failBatch bi.2 then (acc.1, acc.2 + bi.1.length) else (acc.1 + bi.1.length, acc.2))
    (0, 0)

/-- The `for (const [apiKey, calendarName] of ...)` loop of `main`: each
configured calendar dedupes its own guests into a fresh map and upserts the
resulting contacts; `fail src batch` tells whether a given upsert batch of a
given source fails. -/
def runSyncGo (fail : Nat → Nat → Bool) : Nat → RunResults →
    List (String × List LumaGuest) → RunResults
  | _, acc, [] => acc
  | idx, acc, s :: rest =>
    let contacts := (syncDedupe s.1 s.2).map (fun p => p.2)
    let ie := upsertPhase (fail idx) contacts
    runSyncGo fail (idx + 1)
      { totalContacts := acc.totalContacts + contacts.length
        imported := acc.imported + ie.1
        errors := acc.errors + ie.2 } rest

/-- One whole sync run over the configured (enabled) sources, with their
already-fetched guest lists. -/
def runSync (fail : Nat → Nat → Bool) (sources : List (String × List LumaGuest)) : RunResults :=
  runSyncGo fail 0 ⟨0, 0, 0⟩ sources

/-- Modelled from the spec: the Supabase `upsert(batch, { onConflict: 'email' })`
used by the Persistence Sink is not part of the repository; §4.6 specifies an
idempotent upsert keyed on `email` that updates every field present in the
payload ("update existing fields, do not null out fields absent from this
payload").  The store is abstracted to the one column at issue,
`relationship_stage`, keyed by e-mail. -/
def storeUpsert (store : List (String × String)) (contacts : List SyncContact) :
    List (String × String) :=
  contacts.foldl (fun st c => mapSet st c.email c.relationship_stage) store

/-! ### Concrete inputs used by the evaluation theorems -/

/-- A guest record with every optional field absent. -/
def guestBase : LumaGuest :=
  { api_id := none
    user_api_id := none
    name := none
    user_name := none
    email := none
    user_email := none
    phone_number := none
    eth_address := none
    solana_address := none
    created_at := 0
    registered_at := none
    event_api_id := "ev1"
    registration_answers := none
    event_ticket := none }

/-- First sighting of person `u1` at event `ev1`. -/
def dupGuestA : LumaGuest :=
  { guestBase with
    user_api_id := some "u1"
    email := some "a@x.com"
    registration_answers := some [⟨"Telegram handle", "@a"⟩] }

/-- Second sighting of the same person at the same event with a different
registration answer. -/
def dupGuestB : LumaGuest :=
  { guestBase with
    user_api_id := some "u1"
    email := some "a@x.com"
    registration_answers := some [⟨"Telegram handle", "@b"⟩] }

/-- A guest with a platform person id but no e-mail at all. -/
def personIdOnlyGuest : LumaGuest :=
  { guestBase with user_api_id := some "u1" }

/-- A sighting whose phone number is the empty string (non-null but falsy). -/
def emptyPhoneGuest : LumaGuest :=
  { guestBase with email := some "a@x.com", phone_number := some "" }

/-- A later sighting of the same person with a real phone number. -/
def realPhoneGuest : LumaGuest :=
  { guestBase with email := some "a@x.com", phone_number := some "123" }

/-- Sighting A of the backfill example: no phone, wallet `X`. -/
def backfillGuestA : LumaGuest :=
  { guestBase with email := some "a@x.com", eth_address := some "X" }

/-- Sighting B of the backfill example: phone `Y`, no wallet. -/
def backfillGuestB : LumaGuest :=
  { guestBase with email := some "a@x.com", phone_number := some "Y" }

/-- A sighting with a negative ticket amount. -/
def negativeTicketGuest : LumaGuest :=
  { guestBase with email := some "a@x.com", event_ticket := some (-5) }

/-- A one-event page used by the fetch evaluation theorems. -/
def eventOne : LumaEvent := ⟨"e1", "Event One"⟩

/-- Specification of what a per-key trace of the merge loop produces: `none`
when the key never occurs; otherwise the creation record for the first
matching sighting folded with the merge step over the remaining ones
(starting from `base` when the map already held the key). -/
def foldSpec {C : Type} (create : String → LumaGuest → C) (merge : C → LumaGuest → C)
    (k : String) (base : Option C) (l : List LumaGuest) : Option C :=
  match base, l with
  | some c, l => some (l.foldl merge c)
  | none, [] => none
  | none, g :: l => some (l.foldl merge (create k g))

end ZoCRM

namespace ZoCRM

/-! ## Association-list map lemmas -/

theorem mapGet_mapSet_self {β : Type} (m : List (String × β)) (k : String) (v : β) :
    mapGet (mapSet m k v) k = some v := by
  induction m with
  | nil => simp [mapSet, mapGet]
  | cons p m ih =>
    by_cases hp : p.1 = k
    · simp [mapSet, hp, mapGet]
    · simp [mapSet, hp, mapGet, ih]

theorem mapGet_mapSet_ne {β : Type} (m : List (String × β)) (k k2 : String) (v : β)
    (h : k ≠ k2) : mapGet (mapSet m k v) k2 = mapGet m k2 := by
  induction m with
  | nil => simp [mapSet, mapGet, h]
  | cons p m ih =>
    by_cases hp : p.1 = k
    · subst hp
      simp [mapSet, mapGet, h]
    · by_cases hp2 : p.1 = k2
      · simp [mapSet, hp, mapGet, hp2, Ne.symm h]
      · simp [mapSet, hp, mapGet, hp2, ih]

theorem keys_mapSet {β : Type} (m : List (String × β)) (k : String) (v : β) :
    (mapSet m k v).map Prod.fst =
      if k ∈ m.map Prod.fst then m.map Prod.fst else m.map Prod.fst ++ [k] := by
  induction m with
  | nil => simp [mapSet]
  | cons p m ih =>
    by_cases hp : p.1 = k
    · subst hp
      simp [mapSet]
    · have hne : ¬k = p.1 := fun h => hp h.symm
      by_cases hk : k ∈ m.map Prod.fst <;>
        simp [mapSet, hp, ih, hne, hk]

theorem mapGet_isSome_iff {β : Type} (m : List (String × β)) (k : String) :
    (mapGet m k).isSome ↔ k ∈ m.map Prod.fst := by
  induction m with
  | nil => simp [mapGet]
  | cons p m ih =>
    by_cases hp : p.1 = k
    · simp [mapGet, hp]
    · have hne : ¬k = p.1 := fun h => hp h.symm
      simp [mapGet, hp, ih, hne]

theorem keys_nodup_mapSet {β : Type} (m : List (String × β)) (k : String) (v : β)
    (h : (m.map Prod.fst).Nodup) : ((mapSet m k v).map Prod.fst).Nodup := by
  rw [keys_mapSet]
  by_cases hk : k ∈ m.map Prod.fst
  · simpa [hk] using h
  · simp [hk, List.nodup_append, h]

/-! ## The per-key trace of the merge loops -/

theorem dfold_lookup {C : Type} (keyOf : LumaGuest → Option String)
    (create : String → LumaGuest → C) (merge : C → LumaGuest → C)
    (gs : List LumaGuest) (m : List (String × C)) (k : String) :
    mapGet (gs.foldl (dstep keyOf create merge) m) k =
      foldSpec create merge k (mapGet m k)
        (gs.filter (fun g => keyOf g == some k)) := by
  induction gs generalizing m with
  | nil => cases hm : mapGet m k <;> simp [foldSpec, hm]
  | cons g gs ih =>
    simp only [List.foldl_cons]
    cases hkey : keyOf g with
    | none =>
      have hpred : (keyOf g == some k) = false := by simp [hkey]
      simp [dstep, hkey, List.filter_cons, hpred, ih]
    | some e =>
      by_cases he : e = k
      · subst he
        have hpred : (keyOf g == some e) = true := by simp [hkey]
        cases hm : mapGet m e with
        | some c =>
          rw [ih]
          simp [dstep, hkey, hm, List.filter_cons, hpred, mapGet_mapSet_self, foldSpec]
        | none =>
          rw [ih]
          simp [dstep, hkey, hm, List.filter_cons, hpred, mapGet_mapSet_self, foldSpec]
      · have hpred : (keyOf g == some k) = false := by simp [hkey, he]
        have hstep : mapGet (dstep keyOf create merge m g) k = mapGet m k := by
          cases hm : mapGet m e <;>
            simp [dstep, hkey, hm, mapGet_mapSet_ne _ _ _ _ he]
        rw [ih, hstep]
        simp [List.filter_cons, hpred]

/-- Per-key trace of the sync-script merge loop. -/
theorem syncDedupe_lookup (cal : String) (gs : List LumaGuest) (k : String) :
    mapGet (syncDedupe cal gs) k =
      foldSpec (createContact cal) mergeExisting k none
        (gs.filter (fun g => normEmail g == some k)) := by
  unfold syncDedupe syncStep
  rw [dfold_lookup]
  rfl

/-- Per-key trace of `deduplicateContacts`. -/
theorem agDedupeMap_lookup (evs : List LumaEvent) (gs : List LumaGuest) (k : String) :
    mapGet (agDedupeMap evs gs) k =
      foldSpec (fun key g => agCreate (eventNameOf (agEventMap evs) g) key g)
        (fun c g => agMerge (eventNameOf (agEventMap evs) g) c g) k none
        (gs.filter (fun g => agKey g == some k)) := by
  unfold agDedupeMap agStep
  rw [dfold_lookup]
  rfl

/-! ## Field accumulation along a per-key trace -/

theorem foldl_merge_total_spent (l : List LumaGuest) (c : SyncContact) :
    (l.foldl mergeExisting c).total_spent = c.total_spent + (l.map ticketAmount).sum := by
  induction l generalizing c with
  | nil => simp
  | cons g l ih =>
    simp only [List.foldl_cons, List.map_cons, List.sum_cons, ih]
    simp [mergeExisting]
    ring

theorem merge_phone_stable (c : SyncContact) (g : LumaGuest) (h : jsTruthy c.phone = true) :
    (mergeExisting c g).phone = c.phone := by
  simp [mergeExisting, h]

theorem foldl_merge_phone_stable (l : List LumaGuest) (c : SyncContact)
    (h : jsTruthy c.phone = true) : (l.foldl mergeExisting c).phone = c.phone := by
  induction l generalizing c with
  | nil => rfl
  | cons g l ih =>
    have hg := merge_phone_stable c g h
    have ht : jsTruthy (mergeExisting c g).phone = true := by rw [hg]; exact h
    simp only [List.foldl_cons]
    rw [ih _ ht, hg]

theorem merge_eth_stable (c : SyncContact) (g : LumaGuest)
    (h : jsTruthy c.eth_address = true) : (mergeExisting c g).eth_address = c.eth_address := by
  simp [mergeExisting, h]

theorem foldl_merge_eth_stable (l : List LumaGuest) (c : SyncContact)
    (h : jsTruthy c.eth_address = true) :
    (l.foldl mergeExisting c).eth_address = c.eth_address := by
  induction l generalizing c with
  | nil => rfl
  | cons g l ih =>
    have hg := merge_eth_stable c g h
    have ht : jsTruthy (mergeExisting c g).eth_address = true := by rw [hg]; exact h
    simp only [List.foldl_cons]
    rw [ih _ ht, hg]

theorem merge_solana_stable (c : SyncContact) (g : LumaGuest)
    (h : jsTruthy c.solana_address = true) :
    (mergeExisting c g).solana_address = c.solana_address := by
  simp [mergeExisting, h]

theorem foldl_merge_solana_stable (l : List LumaGuest) (c : SyncContact)
    (h : jsTruthy c.solana_address = true) :
    (l.foldl mergeExisting c).solana_address = c.solana_address := by
  induction l generalizing c with
  | nil => rfl
  | cons g l ih =>
    have hg := merge_solana_stable c g h
    have ht : jsTruthy (mergeExisting c g).solana_address = true := by rw [hg]; exact h
    simp only [List.foldl_cons]
    rw [ih _ ht, hg]

theorem merge_telegram_stable (c : SyncContact) (g : LumaGuest)
    (h : jsTruthy c.telegram = true) : (mergeExisting c g).telegram = c.telegram := by
  simp [mergeExisting, h]

theorem foldl_merge_telegram_stable (l : List LumaGuest) (c : SyncContact)
    (h : jsTruthy c.telegram = true) : (l.foldl mergeExisting c).telegram = c.telegram := by
  induction l generalizing c with
  | nil => rfl
  | cons g l ih =>
    have hg := merge_telegram_stable c g h
    have ht : jsTruthy (mergeExisting c g).telegram = true := by rw [hg]; exact h
    simp only [List.foldl_cons]
    rw [ih _ ht, hg]

theorem merge_twitter_stable (c : SyncContact) (g : LumaGuest)
    (h : jsTruthy c.twitter = true) : (mergeExisting c g).twitter = c.twitter := by
  simp [mergeExisting, h]

theorem foldl_merge_twitter_stable (l : List LumaGuest) (c : SyncContact)
    (h : jsTruthy c.twitter = true) : (l.foldl mergeExisting c).twitter = c.twitter := by
  induction l generalizing c with
  | nil => rfl
  | cons g l ih =>
    have hg := merge_twitter_stable c g h
    have ht : jsTruthy (mergeExisting c g).twitter = true := by rw [hg]; exact h
    simp only [List.foldl_cons]
    rw [ih _ ht, hg]

theorem foldl_merge_linkedin_const (l : List LumaGuest) (c : SyncContact) :
    (l.foldl mergeExisting c).linkedin = c.linkedin := by
  induction l generalizing c with
  | nil => rfl
  | cons g l ih =>
    simp only [List.foldl_cons]
    rw [ih]
    simp [mergeExisting]

theorem agMerge_first_seen (en : String) (c : AGContact) (g : LumaGuest) :
    (agMerge en c g).first_seen = min c.first_seen (effTime g) := by
  simp only [agMerge]
  split <;> omega

theorem foldl_agMerge_first_seen (en : LumaGuest → String) (l : List LumaGuest)
    (c : AGContact) :
    (l.foldl (fun c g => agMerge (en g) c g) c).first_seen =
      (l.map effTime).foldl min c.first_seen := by
  induction l generalizing c with
  | nil => rfl
  | cons g l ih =>
    simp only [List.foldl_cons, List.map_cons]
    rw [ih, agMerge_first_seen]

theorem ag_first_seen_min (evs : List LumaEvent) (gs : List LumaGuest) (k : String)
    (c : AGContact) (h : mapGet (agDedupeMap evs gs) k = some c) :
    ((gs.filter (fun g => agKey g == some k)).map effTime).min? = some c.first_seen := by
  rw [agDedupeMap_lookup] at h
  rcases hfil : gs.filter (fun g => agKey g == some k) with _ | ⟨g0, rest⟩
  · rw [hfil] at h
    simp [foldSpec] at h
  · rw [hfil] at h
    simp only [foldSpec, Option.some.injEq] at h
    subst h
    rw [List.map_cons, List.min?]
    rw [foldl_agMerge_first_seen]
    rfl

/-! ## Claim theorems -/

/-- C1: the claim says `eventsAttended` equals the number of distinct
`eventId` values folded into a contact, and that two sightings with the same
`eventId` and identity key raise it by exactly 1.  The code instead does
`events_attended++` / `events_count++` once per raw sighting: on two sightings
of person `u1` at the same event `ev1` with different registration answers,
`deduplicateContacts` yields `events_count = 2` while its own deduplicated
`events` list has length 1, and the sync-script merger yields
`events_attended = 2`. -/
theorem events_attended_double_counts_same_event :
    ((mapGet (agDedupeMap [] [dupGuestA, dupGuestB]) "u1").map
        (fun c => (c.events_count, c.events.length)) = some (2, 1)) ∧
    ((mapGet (syncDedupe "Calendar 1" [dupGuestA, dupGuestB]) "a@x.com").map
        (fun c => c.events_attended) = some 2) := by
  constructor <;> rfl

/-- C4 counterexample: the spec's backfill policy is "first NON-NULL wins",
but the guards in the code test JS truthiness, not nullness.  A contact
created from a sighting whose `phone_number` is the non-null empty string has
`phone` set to `""`; a later sighting with phone `"123"` overwrites it with a
different value. -/
theorem nonnull_empty_phone_is_overwritten :
    ((mapGet (syncDedupe "Calendar 1" [emptyPhoneGuest]) "a@x.com").map
        (fun c => c.phone) = some (some "")) ∧
    ((mapGet (syncDedupe "Calendar 1" [emptyPhoneGuest, realPhoneGuest]) "a@x.com").map
        (fun c => c.phone) = some (some "123")) ∧
    (some "" : Option String) ≠ some "123" := by
  refine ⟨rfl, rfl, by decide⟩

/-- C4 (amended): backfill is first-TRUTHY-wins: once `phone`, a wallet
address or a social handle holds a non-empty value on a contact, later
sightings never overwrite it (in the sync merger `linkedin` is never touched
after creation at all, and the same guards protect `deduplicateContacts`);
a field holding the empty string counts as unset and may be replaced.
Merging A(phone=null, eth=X) and B(phone=Y, eth=null) in either order yields
phone=Y, eth=X. -/
theorem backfill_first_truthy_wins :
    (∀ (l : List LumaGuest) (c : SyncContact), jsTruthy c.phone = true →
      (l.foldl mergeExisting c).phone = c.phone) ∧
    (∀ (l : List LumaGuest) (c : SyncContact), jsTruthy c.eth_address = true →
      (l.foldl mergeExisting c).eth_address = c.eth_address) ∧
    (∀ (l : List LumaGuest) (c : SyncContact), jsTruthy c.solana_address = true →
      (l.foldl mergeExisting c).solana_address = c.solana_address) ∧
    (∀ (l : List LumaGuest) (c : SyncContact), jsTruthy c.telegram = true →
      (l.foldl mergeExisting c).telegram = c.telegram) ∧
    (∀ (l : List LumaGuest) (c : SyncContact), jsTruthy c.twitter = true →
      (l.foldl mergeExisting c).twitter = c.twitter) ∧
    (∀ (l : List LumaGuest) (c : SyncContact),
      (l.foldl mergeExisting c).linkedin = c.linkedin) ∧
    (∀ (en : String) (c : AGContact) (g : LumaGuest), jsTruthy c.phone = true →
      (agMerge en c g).phone = c.phone) ∧
    (∀ (en : String) (c : AGContact) (g : LumaGuest), jsTruthy c.telegram = true →
      (agMerge en c g).telegram = c.telegram) ∧
    ((mapGet (syncDedupe "Calendar 1" [backfillGuestA, backfillGuestB]) "a@x.com").map
        (fun c => (c.phone, c.eth_address)) = some (some "Y", some "X")) ∧
    ((mapGet (syncDedupe "Calendar 1" [backfillGuestB, backfillGuestA]) "a@x.com").map
        (fun c => (c.phone, c.eth_address)) = some (some "Y", some "X")) := by
  refine ⟨foldl_merge_phone_stable, foldl_merge_eth_stable, foldl_merge_solana_stable,
    foldl_merge_telegram_stable, foldl_merge_twitter_stable, foldl_merge_linkedin_const,
    ?_, ?_, rfl, rfl⟩
  · intro en c g h
    simp [agMerge, h]
  · intro en c g h
    simp [agMerge, h]

/-- Witness for C4: a contact whose phone is already the truthy `"123"` keeps
it across a further merge. -/
theorem backfill_first_truthy_wins_witness :
    ([emptyPhoneGuest].foldl mergeExisting
        (createContact "Calendar 1" "a@x.com" realPhoneGuest)).phone =
      (createContact "Calendar 1" "a@x.com" realPhoneGuest).phone :=
  backfill_first_truthy_wins.1 [emptyPhoneGuest]
    (createContact "Calendar 1" "a@x.com" realPhoneGuest) (by decide)

/-- C5 counterexample: `totalSpent` is claimed never negative, but
`guest.event_ticket?.amount || 0` passes a negative amount through and the
code never clamps: one sighting with amount `-5` yields `total_spent = -5`. -/
theorem negative_ticket_amount_negative_total :
    ((mapGet (syncDedupe "Calendar 1" [negativeTicketGuest]) "a@x.com").map
        (fun c => c.total_spent) = some (-5)) ∧
    (-5 : Int) < 0 := by
  refine ⟨rfl, by decide⟩

/-- C5 (amended): each contact's `total_spent` is the sum of
`event_ticket?.amount || 0` over all sightings folded into it; a missing
amount contributes zero; the total is nonnegative provided every supplied
amount is nonnegative (the code does not enforce this, see the
counterexample). -/
theorem total_spent_sums_ticket_amounts (cal : String) (gs : List LumaGuest) (k : String)
    (c : SyncContact) (h : mapGet (syncDedupe cal gs) k = some c) :
    c.total_spent = ((gs.filter (fun g => normEmail g == some k)).map ticketAmount).sum ∧
    (∀ g : LumaGuest, g.event_ticket = none → ticketAmount g = 0) ∧
    ((∀ g ∈ gs, 0 ≤ ticketAmount g) → 0 ≤ c.total_spent) := by
  rw [syncDedupe_lookup] at h
  rcases hfil : gs.filter (fun g => normEmail g == some k) with _ | ⟨g0, rest⟩
  · rw [hfil] at h
    simp [foldSpec] at h
  · rw [hfil] at h
    simp only [foldSpec, Option.some.injEq] at h
    subst h
    have hsum : (rest.foldl mergeExisting (createContact cal k g0)).total_spent =
        ((g0 :: rest).map ticketAmount).sum := by
      rw [foldl_merge_total_spent, List.map_cons, List.sum_cons]
      simp [createContact]
    refine ⟨hsum, fun g hg => by simp [ticketAmount, hg], fun hpos => ?_⟩
    rw [hsum]
    apply List.sum_nonneg
    intro x hx
    simp only [List.mem_map] at hx
    obtain ⟨g, hgmem, rfl⟩ := hx
    have : g ∈ gs.filter (fun g => normEmail g == some k) := hfil ▸ hgmem
    exact hpos g (List.mem_filter.mp this).1

/-- Witness for C5: the single-sighting contact for `dupGuestA`. -/
theorem total_spent_sums_ticket_amounts_witness :
    (createContact "Calendar 1" "a@x.com" dupGuestA).total_spent =
      (([dupGuestA].filter (fun g => normEmail g == some "a@x.com")).map ticketAmount).sum :=
  (total_spent_sums_ticket_amounts "Calendar 1" [dupGuestA] "a@x.com"
    (createContact "Calendar 1" "a@x.com" dupGuestA) (by decide)).1

/-- C9: each contact's `first_seen` is the minimum of
`registered_at || created_at` over all sightings folded into it, and is
therefore independent of the order in which the sightings are merged.  The
truthy-e-mail hypothesis restricts the statement to inputs on which the model
agrees with the source (a guest keyed purely by `user_api_id` with no e-mail
makes the JS `getEmailType(undefined)` call throw). -/
theorem first_seen_is_min_registration_time (evs : List LumaEvent) (gs : List LumaGuest)
    (k : String) (c : AGContact)
    (hemail : ∀ g ∈ gs, jsTruthy (jsOr g.user_email g.email) = true)
    (h : mapGet (agDedupeMap evs gs) k = some c) :
    ((gs.filter (fun g => agKey g == some k)).map effTime).min? = some c.first_seen ∧
    (∀ gs2 c2, gs.Perm gs2 → mapGet (agDedupeMap evs gs2) k = some c2 →
      c2.first_seen = c.first_seen) := by
  refine ⟨ag_first_seen_min evs gs k c h, fun gs2 c2 hperm h2 => ?_⟩
  have h1 := ag_first_seen_min evs gs k c h
  have h2m := ag_first_seen_min evs gs2 k c2 h2
  have hp : ((gs.filter (fun g => agKey g == some k)).map effTime).Perm
      ((gs2.filter (fun g => agKey g == some k)).map effTime) :=
    (hperm.filter _).map _
  rw [List.min?_eq_some_iff'] at h1 h2m
  exact Nat.le_antisymm (h2m.2 _ (hp.mem_iff.mp h1.1)) (h1.2 _ (hp.mem_iff.mpr h2m.1))

/-- Witness for C9: the one-sighting contact of `dupGuestA`. -/
theorem first_seen_is_min_registration_time_witness :
    (([dupGuestA].filter (fun g => agKey g == some "u1")).map effTime).min? =
      some (agCreate "ev1" "u1" dupGuestA).first_seen :=
  (first_seen_is_min_registration_time [] [dupGuestA] "u1" (agCreate "ev1" "u1" dupGuestA)
    (by decide) (by decide)).1

/-! ## Key-set lemmas for the dedup maps -/

theorem dfold_keys_nodup {C : Type} (keyOf : LumaGuest → Option String)
    (create : String → LumaGuest → C) (merge : C → LumaGuest → C)
    (gs : List LumaGuest) (m : List (String × C)) (h : (m.map Prod.fst).Nodup) :
    ((gs.foldl (dstep keyOf create merge) m).map Prod.fst).Nodup := by
  induction gs generalizing m with
  | nil => exact h
  | cons g gs ih =>
    simp only [List.foldl_cons]
    apply ih
    cases hkey : keyOf g with
    | none => simpa [dstep, hkey] using h
    | some e =>
      cases hm : mapGet m e <;>
        simp only [dstep, hkey, hm] <;>
        exact keys_nodup_mapSet _ _ _ h

theorem foldSpec_isSome {C : Type} (create : String → LumaGuest → C)
    (merge : C → LumaGuest → C) (k : String) (l : List LumaGuest) :
    (foldSpec create merge k none l).isSome ↔ l ≠ [] := by
  cases l <;> simp [foldSpec]

theorem syncDedupe_isSome_iff (cal : String) (gs : List LumaGuest) (k : String) :
    (mapGet (syncDedupe cal gs) k).isSome ↔ k ∈ gs.filterMap normEmail := by
  rw [syncDedupe_lookup, foldSpec_isSome]
  rw [Ne, List.filter_eq_nil_iff]
  simp only [List.mem_filterMap]
  constructor
  · intro h
    by_contra hc
    push_neg at hc
    exact h fun g hg => by
      simp only [beq_iff_eq]
      intro he
      exact hc g hg he
  · rintro ⟨g, hg, he⟩ hall
    have := hall g hg
    simp only [beq_iff_eq] at this
    exact this he

theorem syncDedupe_length (cal : String) (gs : List LumaGuest) :
    (syncDedupe cal gs).length = (gs.filterMap normEmail).toFinset.card := by
  have hnodup : ((syncDedupe cal gs).map Prod.fst).Nodup := by
    unfold syncDedupe syncStep
    exact dfold_keys_nodup _ _ _ gs [] (by simp)
  have hset : ((syncDedupe cal gs).map Prod.fst).toFinset =
      (gs.filterMap normEmail).toFinset := by
    ext x
    simp only [List.mem_toFinset]
    rw [← mapGet_isSome_iff, syncDedupe_isSome_iff]
  have hcard := List.toFinset_card_of_nodup hnodup
  rw [hset] at hcard
  rw [hcard, List.length_map]

/-! ## Run accounting -/

theorem runSyncGo_totalContacts (fail : Nat → Nat → Bool)
    (sources : List (String × List LumaGuest)) (idx : Nat) (acc : RunResults) :
    (runSyncGo fail idx acc sources).totalContacts =
      acc.totalContacts + (sources.map (fun s => (syncDedupe s.1 s.2).length)).sum := by
  induction sources generalizing idx acc with
  | nil => simp [runSyncGo]
  | cons s rest ih =>
    simp only [runSyncGo, List.map_cons, List.sum_cons, ih, List.length_map]
    omega

theorem upsertFold_errors (failBatch : Nat → Bool) (bs : List (List SyncContact × Nat))
    (acc : Nat × Nat) (h : ∀ i, failBatch i = false) :
    (bs.foldl (fun acc bi =>
        if failBatch bi.2 then (acc.1, acc.2 + bi.1.length)
        else (acc.1 + bi.1.length, acc.2)) acc).2 = acc.2 := by
  induction bs generalizing acc with
  | nil => rfl
  | cons b bs ih =>
    simp only [List.foldl_cons]
    rw [if_neg (by simp [h])]
    exact ih _

theorem upsertPhase_nofail_errors (contacts : List SyncContact) :
    (upsertPhase (fun _ => false) contacts).2 = 0 := by
  unfold upsertPhase
  exact upsertFold_errors _ _ _ (fun _ => rfl)

theorem runSyncGo_errors_nofail (sources : List (String × List LumaGuest)) (idx : Nat)
    (acc : RunResults) :
    (runSyncGo (fun _ _ => false) idx acc sources).errors = acc.errors := by
  induction sources generalizing idx acc with
  | nil => rfl
  | cons s rest ih =>
    simp only [runSyncGo, ih, upsertPhase_nofail_errors, Nat.add_zero]

/-- C2 counterexample: in `sync_luma_now.ts` / the API route, the
`contactMap` is created inside the per-calendar loop, so a person appearing
in two configured calendars produces one contact per calendar: the run with
the same guest in both calendars reports `totalContacts = 2` although only
one distinct identity key occurs. -/
theorem per_calendar_maps_count_shared_identity_twice :
    (runSync (fun _ _ => false)
        [("Calendar 1", [dupGuestA]), ("Calendar 2", [dupGuestA])]).totalContacts = 2 ∧
    ([dupGuestA] ++ [dupGuestA]).filterMap normEmail = ["a@x.com", "a@x.com"] ∧
    (([dupGuestA] ++ [dupGuestA]).filterMap normEmail).toFinset.card = 1 := by
  refine ⟨rfl, rfl, by decide⟩

/-- C2 (amended): each configured source feeds its own fresh merger map, so
within one source there is exactly one contact per distinct identity key
(keys are unique and present exactly for the keys occurring in that source's
guests), and the run's `totalContacts` is the sum over sources of each
source's own distinct-key count — an identity key sighted in two sources is
counted once per source, not once per run. -/
theorem run_total_counts_keys_per_source :
    (∀ (fail : Nat → Nat → Bool) (sources : List (String × List LumaGuest)),
      (runSync fail sources).totalContacts =
        (sources.map (fun s => (s.2.filterMap normEmail).toFinset.card)).sum) ∧
    (∀ (cal : String) (gs : List LumaGuest),
      ((syncDedupe cal gs).map Prod.fst).Nodup ∧
      ∀ k, (mapGet (syncDedupe cal gs) k).isSome ↔ k ∈ gs.filterMap normEmail) := by
  constructor
  · intro fail sources
    rw [runSync, runSyncGo_totalContacts]
    simp only [Nat.zero_add]
    congr 1
    exact List.map_congr_left fun s _ => syncDedupe_length s.1 s.2
  · intro cal gs
    refine ⟨?_, fun k => syncDedupe_isSome_iff cal gs k⟩
    unfold syncDedupe syncStep
    exact dfold_keys_nodup _ _ _ gs [] (by simp)

/-- C3 counterexample: a guest with a platform person id but no e-mail is
claimed to be keyed by the person id, or else counted as an error.  The sync
merger keys records only on the lowercased e-mail: the guest is silently
dropped (no contact under `"u1"`), and the run reports `errors = 0`. -/
theorem personid_only_guest_dropped_without_error :
    runSync (fun _ _ => false) [("Calendar 1", [personIdOnlyGuest])] = ⟨0, 0, 0⟩ ∧
    personIdOnlyGuest.user_api_id = some "u1" ∧
    mapGet (syncDedupe "Calendar 1" [personIdOnlyGuest]) "u1" = none := by
  exact ⟨rfl, rfl, rfl⟩

/-- C3 (amended): the sync merger keys each record on the lowercased
`user_email || email` and ignores the platform person id; a record with no
truthy e-mail is skipped silently, and the run's error counter counts only
failed upsert batches (it stays `0` whenever no upsert fails, whatever the
guests).  The page-level `deduplicateContacts` instead keys on
`user_api_id || email || user_email` without lowercasing. -/
theorem identity_key_is_email_only_and_skips_are_silent :
    (∀ (cal : String) (m : List (String × SyncContact)) (g : LumaGuest),
      normEmail g = none → syncStep cal m g = m) ∧
    (∀ (g : LumaGuest) (u : Option String),
      normEmail { g with user_api_id := u } = normEmail g) ∧
    (∀ sources, (runSync (fun _ _ => false) sources).errors = 0) ∧
    (∀ (g : LumaGuest) (s : String), g.user_api_id = some s → s ≠ "" →
      agKey g = some s) ∧
    (agKey { guestBase with email := some "A@X.com" } = some "A@X.com" ∧
      normEmail { guestBase with email := some "A@X.com" } = some "a@x.com") := by
  refine ⟨?_, ?_, ?_, ?_, rfl, rfl⟩
  · intro cal m g h
    simp [syncStep, dstep, h]
  · intro g u
    rfl
  · intro sources
    rw [runSync, runSyncGo_errors_nofail]
  · intro g s h hne
    simp [agKey, jsOr, jsTruthy, h, hne]

/-- Witness for C3: the person-id-only guest is skipped by the merge step. -/
theorem identity_key_witness :
    syncStep "Calendar 1" [] personIdOnlyGuest = [] :=
  identity_key_is_email_only_and_skips_are_silent.1 "Calendar 1" [] personIdOnlyGuest
    (by decide)

/-! ## Retry loop lemmas -/

theorem fwrGo_429 (responses : Nat → Resp) (h : ∀ n, responses n = Resp.status 429)
    (fuel : Nat) : ∀ attempt, fwrGo responses attempt fuel = ⟨none, fuel, backoffSum attempt fuel⟩ := by
  induction fuel with
  | zero => intro attempt; rfl
  | succ fuel ih =>
    intro attempt
    simp only [fwrGo, h, ih]
    rfl

theorem fwrGo_fetches_le (rs : Nat → Resp) (fuel : Nat) :
    ∀ attempt, (fwrGo rs attempt fuel).fetches ≤ fuel := by
  induction fuel with
  | zero => intro attempt; exact Nat.le_refl 0
  | succ fuel ih =>
    intro attempt
    simp only [fwrGo]
    cases rs attempt with
    | ok p => exact Nat.succ_le_succ (Nat.zero_le fuel)
    | status s =>
      by_cases h429 : s = 429
      · simp only [h429, if_pos rfl]
        exact Nat.succ_le_succ (ih (attempt + 1))
      · simp only [if_neg h429]
        exact Nat.succ_le_succ (Nat.zero_le fuel)
    | netErr => exact Nat.succ_le_succ (ih (attempt + 1))

/-- C6: under persistent 429 responses, `fetchWithRetry` with the configured
maximum of 5 attempts performs exactly 5 fetches, waits
`min(1000·2^n, 30000)` ms before each retry for a total of 31000 ms — which
equals the claimed bound `sum over n < 5 of min(2^n s, 30 s)` — and then
yields the `null` rate-limit-exhausted failure instead of looping; for any
response stream the number of fetches never exceeds the attempt cap. -/
theorem rate_limit_retry_bounded (responses : Nat → Resp)
    (h : ∀ n, responses n = Resp.status 429) :
    fetchWithRetry responses 5 = ⟨none, 5, 31000⟩ ∧
    ((List.range 5).map (fun n => min (1000 * 2 ^ n) 30000)).sum = 31000 ∧
    ∀ (rs : Nat → Resp) (maxR : Nat), (fetchWithRetry rs maxR).fetches ≤ maxR := by
  refine ⟨?_, by decide, fun rs maxR => fwrGo_fetches_le rs maxR 0⟩
  rw [fetchWithRetry, fwrGo_429 responses h]
  rfl

/-- Witness for C6: the constant-429 response stream. -/
theorem rate_limit_retry_bounded_witness :
    fetchWithRetry (fun _ => Resp.status 429) 5 = ⟨none, 5, 31000⟩ :=
  (rate_limit_retry_bounded (fun _ => Resp.status 429) (fun _ => rfl)).1

/-- C8 counterexample: the claim says a non-2xx non-429 page response fails
immediately with an error carrying the status and is not retried.  In
`auth-guard.tsx`'s `fetchAllEvents`, a 500 response is retried: the same
request is fetched a second time (2 fetches) and the page is still delivered;
and `fetchWithRetry` returns a bare `null` whose value is identical for a 404
and a 500, so the failure carries no status. -/
theorem auth_guard_retries_non_2xx_status :
    (agFetchAllEvents [Resp.status 500, Resp.ok ⟨[eventOne], false⟩] = ([eventOne], 2) ∧
      (2 : Nat) ≠ 1) ∧
    fetchWithRetry (fun _ => Resp.status 404) 5 = fetchWithRetry (fun _ => Resp.status 500) 5 := by
  exact ⟨⟨rfl, by decide⟩, rfl⟩

/-- C8 (amended): in `fetchWithRetry` a non-2xx status other than 429 makes
the page fail immediately — exactly one fetch, no backoff wait, and a `null`
result that carries no status (the status is only logged); the inline page
loops in `auth-guard.tsx` instead retry any non-ok response up to their
attempt cap, as the concrete 500-then-ok trace shows. -/
theorem non_retryable_status_fails_immediately (rs : Nat → Resp) (s maxR : Nat)
    (hs : s ≠ 429) (h0 : rs 0 = Resp.status s) :
    fetchWithRetry rs (maxR + 1) = ⟨none, 1, 0⟩ ∧
    agFetchAllEvents [Resp.status 500, Resp.ok ⟨[eventOne], false⟩] = ([eventOne], 2) := by
  refine ⟨?_, rfl⟩
  simp [fetchWithRetry, fwrGo, h0, hs]

/-- Witness for C8: a 404 on the first attempt. -/
theorem non_retryable_status_fails_immediately_witness :
    fetchWithRetry (fun _ => Resp.status 404) 5 = ⟨none, 1, 0⟩ :=
  (non_retryable_status_fails_immediately (fun _ => Resp.status 404) 404 4
    (by decide) rfl).1

/-! ## Batch coordination lemmas -/

theorem chunksOfGo_flatten {α : Type} (n : Nat) (hn : 0 < n) (fuel : Nat) :
    ∀ l : List α, l.length ≤ fuel → (chunksOfGo n fuel l).flatten = l := by
  induction fuel with
  | zero =>
    intro l hl
    have : l = [] := List.eq_nil_of_length_eq_zero (Nat.le_zero.mp hl)
    subst this
    rfl
  | succ fuel ih =>
    intro l hl
    cases l with
    | nil => rfl
    | cons a l2 =>
      simp only [chunksOfGo, List.flatten_cons]
      rw [ih ((a :: l2).drop n)
        (by simp only [List.length_drop, List.length_cons] at hl ⊢; omega)]
      exact List.take_append_drop n (a :: l2)

theorem chunksOf_flatten {α : Type} (n : Nat) (l : List α) :
    (chunksOf n l).flatten = l := by
  unfold chunksOf
  by_cases hn : n = 0
  · simp [hn]
  · rw [if_neg hn]
    exact chunksOfGo_flatten n (Nat.pos_of_ne_zero hn) l.length l (Nat.le_refl _)

theorem foldl_append_flatten {X Y : Type} (f : X → List Y) (bs : List X) (acc : List Y) :
    bs.foldl (fun a b => a ++ f b) acc = acc ++ (bs.map f).flatten := by
  induction bs generalizing acc with
  | nil => simp
  | cons b bs ih => simp [ih, List.append_assoc]

theorem settledValues_flatten {α : Type} (bss : List (List (Except Unit α))) :
    settledValues bss.flatten = (bss.map settledValues).flatten := by
  induction bss with
  | nil => rfl
  | cons b bss ih => simp [settledValues, List.filterMap_append, ih, settledValues] at ih ⊢; rw [ih]

theorem flatten_map_flatten {X Y : Type} (g : X → List (List Y)) (L : List X) :
    (L.map (fun x => (g x).flatten)).flatten = ((L.map g).flatten).flatten := by
  induction L with
  | nil => rfl
  | cons x L ih => simp [List.flatten_append, ih]

theorem promiseAll_error {α : Type} (b : List (Except Unit α))
    (h : Except.error () ∈ b) : promiseAll b = Except.error () := by
  induction b with
  | nil => simp at h
  | cons x rest ih =>
    cases x with
    | error e => cases e; rfl
    | ok a =>
      have hr : Except.error () ∈ rest := by
        rcases List.mem_cons.mp h with h1 | h1
        · exact absurd h1 (by simp)
        · exact h1
      simp [promiseAll, ih hr, Except.map]

theorem promiseAll_ok {α : Type} (b : List (Except Unit α))
    (h : Except.error () ∉ b) : promiseAll b = Except.ok (settledValues b) := by
  induction b with
  | nil => rfl
  | cons x rest ih =>
    cases x with
    | error e => cases e; exact absurd (List.mem_cons_self _ _) h
    | ok a =>
      have hr : Except.error () ∉ rest := fun hc => h (List.mem_cons_of_mem _ hc)
      simp [promiseAll, ih hr, settledValues, Except.map]

theorem syncGuestPhaseGo_error (bs : List (List (Except Unit (List LumaGuest))))
    (h : ∃ b ∈ bs, Except.error () ∈ b) : syncGuestPhaseGo bs = Except.error () := by
  induction bs with
  | nil => simp at h
  | cons b rest ih =>
    rcases h with ⟨b0, hb0, hmem⟩
    rcases List.mem_cons.mp hb0 with h1 | h1
    · subst h1
      simp [syncGuestPhaseGo, promiseAll_error b0 hmem]
    · cases hp : promiseAll b with
      | error e => cases e; simp [syncGuestPhaseGo, hp]
      | ok gss => simp [syncGuestPhaseGo, hp, ih ⟨b0, h1, hmem⟩, Except.map]

theorem syncGuestPhaseGo_ok (bs : List (List (Except Unit (List LumaGuest))))
    (h : ∀ b ∈ bs, Except.error () ∉ b) :
    syncGuestPhaseGo bs =
      Except.ok ((bs.map (fun b => (settledValues b).flatten)).flatten) := by
  induction bs with
  | nil => rfl
  | cons b rest ih =>
    have hb := h b (List.mem_cons_self _ _)
    have hrest : ∀ b2 ∈ rest, Except.error () ∉ b2 :=
      fun b2 hb2 => h b2 (List.mem_cons_of_mem _ hb2)
    simp [syncGuestPhaseGo, promiseAll_ok b hb, ih hrest, Except.map]

/-- C7 counterexample: in `sync_luma_now.ts` the per-batch guest fetches are
awaited with `Promise.all`, so one event's thrown failure rejects the whole
batch and propagates out of `main` — the guest lists successfully fetched for
the sibling events are lost, against the claim that the failure is isolated.
(`fetchLumaData` in `auth-guard.tsx`, which uses `Promise.allSettled`, does
deliver the siblings.) -/
theorem promise_all_batch_failure_aborts_run :
    syncGuestPhase [Except.ok [dupGuestA], Except.error (), Except.ok [dupGuestB]] =
      Except.error () ∧
    agGuestPhase [Except.ok [dupGuestA], Except.error (), Except.ok [dupGuestB]] =
      [dupGuestA, dupGuestB] := by
  exact ⟨rfl, rfl⟩

/-- C7 (amended): per-event failure isolation holds for the
`Promise.allSettled` batches of `fetchLumaData` in `auth-guard.tsx` — every
fulfilled guest list is delivered whatever the failures; the `Promise.all`
batches of `sync_luma_now.ts` instead turn any thrown per-event failure into
a failure of the whole fetch phase (and thus the run), and deliver everything
only when no event throws. -/
theorem batch_failure_isolation_allsettled :
    (∀ outcomes : List (Except Unit (List LumaGuest)),
      agGuestPhase outcomes = (settledValues outcomes).flatten) ∧
    (∀ outcomes : List (Except Unit (List LumaGuest)),
      Except.error () ∈ outcomes → syncGuestPhase outcomes = Except.error ()) ∧
    (∀ outcomes : List (Except Unit (List LumaGuest)),
      Except.error () ∉ outcomes →
      syncGuestPhase outcomes = Except.ok ((settledValues outcomes).flatten)) := by
  have key : ∀ (n : Nat) (outcomes : List (Except Unit (List LumaGuest))),
      ((chunksOf n outcomes).map (fun b => (settledValues b).flatten)).flatten =
        (settledValues outcomes).flatten := by
    intro n outcomes
    have h2 : ((chunksOf n outcomes).map settledValues).flatten = settledValues outcomes := by
      rw [← settledValues_flatten, chunksOf_flatten]
    rw [flatten_map_flatten, h2]
  refine ⟨fun outcomes => ?_, fun outcomes h => ?_, fun outcomes h => ?_⟩
  · rw [agGuestPhase, foldl_append_flatten, List.nil_append, key]
  · apply syncGuestPhaseGo_error
    rw [← chunksOf_flatten 10 outcomes] at h
    exact List.mem_flatten.mp h
  · rw [syncGuestPhase, syncGuestPhaseGo_ok, key]
    intro b hb hmem
    exact h (by
      rw [← chunksOf_flatten 10 outcomes]
      exact List.mem_flatten_of_mem hb hmem)

/-- Witness for C7: a single rejected event rejects the sync fetch phase. -/
theorem batch_failure_isolation_allsettled_witness :
    syncGuestPhase [Except.error ()] = Except.error () :=
  batch_failure_isolation_allsettled.2.1 [Except.error ()] (by simp)

/-! ## Upsert payload lemmas -/

theorem mapGet_mem_values {β : Type} (m : List (String × β)) (k : String) (v : β)
    (h : mapGet m k = some v) : v ∈ m.map Prod.snd := by
  induction m with
  | nil => simp [mapGet] at h
  | cons p m ih =>
    by_cases hp : p.1 = k
    · simp [mapGet, hp] at h
      simp [h]
    · simp [mapGet, hp] at h
      simp [ih h]

theorem mem_values_mapSet {β : Type} (m : List (String × β)) (k : String) (v c : β)
    (h : c ∈ (mapSet m k v).map Prod.snd) : c = v ∨ c ∈ m.map Prod.snd := by
  induction m with
  | nil => simp [mapSet] at h; exact Or.inl h
  | cons p m ih =>
    by_cases hp : p.1 = k
    · simp [mapSet, hp] at h
      rcases h with h | h
      · exact Or.inl h
      · exact Or.inr (by simp [h])
    · simp [mapSet, hp] at h
      rcases h with h | h
      · exact Or.inr (by simp [h])
      · rcases ih (by simpa using h) with h2 | h2
        · exact Or.inl h2
        · exact Or.inr (by simp; exact Or.inr (by simpa using h2))

theorem syncFold_const_fields (cal : String) (gs : List LumaGuest)
    (m : List (String × SyncContact))
    (hm : ∀ c ∈ m.map Prod.snd,
      c.source = "luma" ∧ c.source_detail = cal ∧ c.relationship_stage = "lead") :
    ∀ c ∈ (gs.foldl (syncStep cal) m).map Prod.snd,
      c.source = "luma" ∧ c.source_detail = cal ∧ c.relationship_stage = "lead" := by
  induction gs generalizing m with
  | nil => exact hm
  | cons g gs ih =>
    simp only [List.foldl_cons]
    apply ih
    intro c hc
    unfold syncStep dstep at hc
    cases hkey : normEmail g with
    | none =>
      simp only [hkey] at hc
      exact hm c hc
    | some e =>
      simp only [hkey] at hc
      cases hget : mapGet m e with
      | some c0 =>
        simp only [hget] at hc
        rcases mem_values_mapSet _ _ _ _ hc with h | h
        · subst h
          have h0 := hm c0 (mapGet_mem_values m e c0 hget)
          simpa [mergeExisting] using h0
        · exact hm c h
      | none =>
        simp only [hget] at hc
        rcases mem_values_mapSet _ _ _ _ hc with h | h
        · subst h
          exact ⟨rfl, rfl, rfl⟩
        · exact hm c h

theorem storeUpsert_untouched (contacts : List SyncContact)
    (st : List (String × String)) (e : String) (h : ∀ x ∈ contacts, x.email ≠ e) :
    mapGet (storeUpsert st contacts) e = mapGet st e := by
  induction contacts generalizing st with
  | nil => rfl
  | cons c rest ih =>
    have hc := h c (List.mem_cons_self _ _)
    have hr : ∀ x ∈ rest, x.email ≠ e := fun x hx => h x (List.mem_cons_of_mem _ hx)
    show mapGet (storeUpsert (mapSet st c.email c.relationship_stage) rest) e = mapGet st e
    rw [ih _ hr, mapGet_mapSet_ne _ _ _ _ hc]

theorem storeUpsert_stage_lead (contacts : List SyncContact)
    (st : List (String × String)) (e : String)
    (hall : ∀ x ∈ contacts, x.relationship_stage = "lead")
    (hex : ∃ x ∈ contacts, x.email = e) :
    mapGet (storeUpsert st contacts) e = some "lead" := by
  induction contacts generalizing st with
  | nil => simp at hex
  | cons c rest ih =>
    by_cases hr : ∃ x ∈ rest, x.email = e
    · exact ih _ (fun x hx => hall x (List.mem_cons_of_mem _ hx)) hr
    · push_neg at hr
      have hce : c.email = e := by
        rcases hex with ⟨x, hx, hxe⟩
        rcases List.mem_cons.mp hx with h1 | h1
        · subst h1; exact hxe
        · exact absurd hxe (hr x h1)
      show mapGet (storeUpsert (mapSet st c.email c.relationship_stage) rest) e = some "lead"
      rw [storeUpsert_untouched rest _ e hr, hce,
        hall c (List.mem_cons_self _ _), mapGet_mapSet_self]

/-- C10: every contact the sync hands to the persistence upsert carries
`source = 'luma'`, `source_detail` = the name of the calendar whose merger
created it, and `relationship_stage = 'lead'`; since `relationship_stage` is
present in every payload row, the e-mail-keyed upsert stores `'lead'` for
every synced contact, overwriting whatever stage the store previously held
for that e-mail. -/
theorem upsert_payload_constant_fields_overwrite_stage (cal : String)
    (gs : List LumaGuest) (store : List (String × String)) (c : SyncContact)
    (hc : c ∈ (syncDedupe cal gs).map Prod.snd) :
    c.source = "luma" ∧ c.source_detail = cal ∧ c.relationship_stage = "lead" ∧
    mapGet (storeUpsert store ((syncDedupe cal gs).map Prod.snd)) c.email = some "lead" := by
  have hconst := syncFold_const_fields cal gs [] (by simp)
  obtain ⟨h1, h2, h3⟩ := hconst c hc
  exact ⟨h1, h2, h3,
    storeUpsert_stage_lead _ _ _ (fun x hx => (hconst x hx).2.2) ⟨c, hc, rfl⟩⟩

/-- Witness for C10: a store that previously held stage `"customer"` for
`a@x.com` holds `"lead"` after a re-sync containing that e-mail. -/
theorem upsert_payload_constant_fields_overwrite_stage_witness :
    mapGet (storeUpsert [("a@x.com", "customer")]
        ((syncDedupe "Calendar 1" [dupGuestA]).map Prod.snd))
      (createContact "Calendar 1" "a@x.com" dupGuestA).email = some "lead" :=
  (upsert_payload_constant_fields_overwrite_stage "Calendar 1" [dupGuestA]
    [("a@x.com", "customer")] (createContact "Calendar 1" "a@x.com" dupGuestA)
    (by decide)).2.2.2

end ZoCRM
